import Mathlib

/-!
Verification of the `bootmgr` boot-entry reconciliation tool
(`src/bootmgr.py`) against its natural-language specification.

The embedding below translates the parts of the source the claims are
about: the parameter serializer (`dump` / `_dump`), the state parser
(`parse_efibootmgr`), the configuration merge (`BootMgr.load_config`),
and the reconciliation engine (`BootMgr.sync` with its `create`,
`delete`, `deactivate` and `execute` methods).  The external
`efibootmgr` process is modelled as an oracle function from the fully
assembled argument vector to either a non-zero-exit diagnostic
(`Except.error stderr`) or a textual report (`Except.ok stdout`).
Mutation of the Python object (`self.state`, exceptions) is modelled by
explicit state passing: every method returns the manager as of the
moment the method finished or raised, together with the list of argument
vectors it issued to the external utility.
-/

/-- A Python value occurring in a parameter tree: a boolean, a scalar
(stored in its stringified form, as the f-string in `_dump` renders it),
or a dict of fields given as an ordered field list (`fnil` / `fcons`). -/
inductive PTree where
  | b : Bool → PTree
  | s : String → PTree
  | fnil : PTree
  | fcons : String → PTree → PTree → PTree
deriving DecidableEq, Repr

/-- Embedding of `_dump(params, prefix)` (src/bootmgr.py lines 93-103).
For each key `k`: `True` yields `prefix+k`; `False` yields
`prefix+'no'+k`; a nested dict recurses with the prefix reset to `k+'.'`
(exactly as the source writes `prefix=f'{k}.'`, discarding the incoming
prefix); any other value yields `prefix+k+'='+v`.  The non-dict cases of
the first argument are unreachable from `dump`, which is only applied to
dicts. -/
def dumpTokens : PTree → String → List String
  | PTree.fcons k (PTree.b true) rest, pfx => (pfx ++ k) :: dumpTokens rest pfx
  | PTree.fcons k (PTree.b false) rest, pfx => (pfx ++ "no" ++ k) :: dumpTokens rest pfx
  | PTree.fcons k PTree.fnil rest, pfx =>
      dumpTokens PTree.fnil (k ++ ".") ++ dumpTokens rest pfx
  | PTree.fcons k (PTree.fcons k2 v2 r2) rest, pfx =>
      dumpTokens (PTree.fcons k2 v2 r2) (k ++ ".") ++ dumpTokens rest pfx
  | PTree.fcons k (PTree.s v) rest, pfx => (pfx ++ k ++ "=" ++ v) :: dumpTokens rest pfx
  | _, _ => []

/-- Embedding of `dump(params)` (src/bootmgr.py lines 85-91): the
space-join of the tokens of `_dump` with the empty starting prefix. -/
def dump (params : PTree) : String :=
  String.intercalate " " (dumpTokens params "")

/-- Splitting a character list on newlines, as Python's
`str.split('\n')` does (empty pieces are kept; the empty string splits
to one empty piece). -/
def splitNl : List Char → List (List Char)
  | [] => [[]]
  | '\n' :: rest => [] :: splitNl rest
  | c :: rest =>
    match splitNl rest with
    | [] => [[c]]
    | l :: ls => (c :: l) :: ls

/-- Splitting a character list on commas, as Python's `str.split(',')`
does. -/
def splitComma : List Char → List (List Char)
  | [] => [[]]
  | ',' :: rest => [] :: splitComma rest
  | c :: rest =>
    match splitComma rest with
    | [] => [[c]]
    | l :: ls => (c :: l) :: ls

/-- The greedy match of the regex group `((.{4},?)*)` from the pattern
`BootOrder: ((.{4},?)*)` (src/bootmgr.py line 113): repeatedly consume
four characters and then an optional comma; stop when fewer than four
characters remain.  (The input comes from a line of `str.split('\n')`
output, so it contains no newline.) -/
def captureOrder : List Char → List Char
  | a :: b :: c :: d :: ',' :: rest => a :: b :: c :: d :: ',' :: captureOrder rest
  | a :: b :: c :: d :: rest => a :: b :: c :: d :: captureOrder rest
  | _ => []

/-- If `pat` is a prefix of the input, return the remainder. -/
def dropPrefixChars : List Char → List Char → Option (List Char)
  | [], rest => some rest
  | _ :: _, [] => none
  | p :: ps, c :: cs => if c = p then dropPrefixChars ps cs else none

/-- The anchored match of `re.compile('BootOrder: ((.{4},?)*)')` against
one line (src/bootmgr.py lines 113, 119-122): the line must start with
`BootOrder: `, and the captured group is the greedy repetition match on
the remainder. -/
def matchOrder (line : List Char) : Option (List Char) :=
  (dropPrefixChars "BootOrder: ".data line).map captureOrder

/-- The anchored match of `re.compile('Boot(.{4})[* ] (.+)')` against
one line (src/bootmgr.py lines 114, 124-127): `Boot`, four arbitrary
characters (the boot number), a `*` or space, a space, and a non-empty
label reaching the end of the line. -/
def matchEntry (line : List Char) : Option (List Char × List Char) :=
  match line with
  | 'B' :: 'o' :: 'o' :: 't' :: a :: b :: c :: d :: e :: ' ' :: rest =>
    if (e = '*' ∨ e = ' ') ∧ rest ≠ [] then some ([a, b, c, d], rest) else none
  | _ => none

/-- Assignment `entries[label] = entry` on an ordered dict: if the key
exists its value is overwritten in place, otherwise the pair is appended
at the end. -/
def odInsert (m : List (String × α)) (k : String) (v : α) : List (String × α) :=
  match m with
  | [] => [(k, v)]
  | (k', v') :: rest => if k' = k then (k, v) :: rest else (k', v') :: odInsert rest k v

/-- Lookup in an ordered dict (first occurrence of the key). -/
def odLookup (m : List (String × α)) (k : String) : Option α :=
  match m with
  | [] => none
  | (k', v) :: rest => if k' = k then some v else odLookup rest k

/-- The line scan of `parse_efibootmgr` (src/bootmgr.py lines 109-127):
every line matching the order pattern (the last such line wins)
replaces `order` with the comma-split of its captured group, and every
line matching the entry pattern stores `entries[label] = entry`.
Returns the `(entries, order)` pair reached after all lines. -/
def scanLines (lines : List (List Char)) : List (String × String) × List String :=
  lines.foldl
    (fun acc line =>
      match matchOrder line with
      | some cap => (acc.1, (splitComma cap).map (fun cs => String.mk cs))
      | none =>
        match matchEntry line with
        | some nl => (odInsert acc.1 (String.mk nl.2) (String.mk nl.1), acc.2)
        | none => acc)
    ([], [])

/-- The entry map built by `parse_efibootmgr` before the reorder loop. -/
def entriesOf (stdout : String) : List (String × String) :=
  (scanLines (splitNl stdout.data)).1

/-- The boot order list built by `parse_efibootmgr` (empty when no order
line was present). -/
def bootOrderOf (stdout : String) : List String :=
  (scanLines (splitNl stdout.data)).2

/-- One iteration of the reorder loop of `parse_efibootmgr`
(src/bootmgr.py lines 129-133): scan the entries in order, and move the
first one whose boot number equals `bootnum` to the end of the map. -/
def move_to_end (es : List (String × String)) (bootnum : String) : List (String × String) :=
  match es with
  | [] => []
  | e :: rest => if e.2 = bootnum then rest ++ [e] else e :: move_to_end rest bootnum

/-- Embedding of `parse_efibootmgr(proc)` (src/bootmgr.py lines
106-135) applied to the process's stdout text: scan all lines, then run
the reorder loop over the collected order list. -/
def parse_efibootmgr (stdout : String) : List (String × String) :=
  (bootOrderOf stdout).foldl move_to_end (entriesOf stdout)

/-- The errors the embedded methods can raise: `bootMgrError` is the
module's `BootMgrError` (raised by `execute` on non-zero exit),
`keyError` models Python's `KeyError` from `self.state[label]`,
`self.config[label]` or `params.pop('loader')`, `typeError` models the
`TypeError` `subprocess.run` raises on a non-string argument, and
`assertionError` models the `assert cmd[0] == 'efibootmgr'`. -/
inductive Err where
  | bootMgrError : String → Err
  | keyError : String → Err
  | typeError : Err
  | assertionError : Err
deriving DecidableEq, Repr

/-- An argument vector passed to the external utility. -/
abbrev Cmd := List String

/-- The external `efibootmgr` process, modelled as a function from the
fully assembled argument vector to either the stderr text of a
non-zero exit or the stdout text of a successful run. -/
def Oracle : Type := Cmd → Except String String

/-- The fields of a `BootMgr` object that the embedded methods read or
write: target device and partition, the `full_delete` policy flag, the
desired configuration (`self.config`, labels to parameter dicts) and
the observed state (`self.state`, labels to boot numbers). -/
structure Mgr where
  device : String
  partition : String
  full_delete : Bool
  config : List (String × PTree)
  state : List (String × String)
deriving DecidableEq, Repr

/-- The outcome of running one method: the manager as of the moment the
method returned or raised, the exception raised (if any), and the
argument vectors issued to the external utility, in order. -/
structure StepRes where
  mgr : Mgr
  err : Option Err
  trace : List Cmd
deriving DecidableEq, Repr

namespace BootMgr

/-- Embedding of `BootMgr.execute` (src/bootmgr.py lines 251-272):
assert the command names the utility, append `--disk`/`--part`, run the
process; on non-zero exit raise `BootMgrError` with the stderr text
minus its last character (`msg[:-1]`), leaving `self.state` untouched;
on success replace `self.state` with the parse of stdout. -/
def execute (oracle : Oracle) (m : Mgr) (cmd : Cmd) : StepRes :=
  if cmd.head? ≠ some "efibootmgr" then ⟨m, some Err.assertionError, []⟩
  else
    match oracle (cmd ++ ["--disk", m.device] ++ ["--part", m.partition]) with
    | Except.error stderr =>
      ⟨m, some (Err.bootMgrError (stderr.dropRight 1)),
        [cmd ++ ["--disk", m.device] ++ ["--part", m.partition]]⟩
    | Except.ok stdout =>
      ⟨{ m with state := parse_efibootmgr stdout }, none,
        [cmd ++ ["--disk", m.device] ++ ["--part", m.partition]]⟩

/-- Embedding of `dict.pop(key)` on a parameter dict: the value at the
key and the dict with that key removed (order of the remaining keys
preserved); `none` when the key is absent (Python raises `KeyError`). -/
def popKey : PTree → String → Option (PTree × PTree)
  | PTree.fcons k v rest, key =>
    if k = key then some (v, rest)
    else (popKey rest key).map (fun p => (p.1, PTree.fcons k v p.2))
  | _, _ => none

/-- Embedding of `BootMgr.create` (src/bootmgr.py lines 196-210): copy
the label's parameter dict from the config, pop the `loader` key, and
execute a `--create` command carrying the label, the loader and the
serialized remaining parameters.  The copy means `self.config` is never
written. -/
def create (oracle : Oracle) (m : Mgr) (label : String) : StepRes :=
  match odLookup m.config label with
  | none => ⟨m, some (Err.keyError label), []⟩
  | some params =>
    match popKey params "loader" with
    | none => ⟨m, some (Err.keyError "loader"), []⟩
    | some (PTree.s loader, params2) =>
      execute oracle m
        ["efibootmgr", "--create", "--label", label, "--loader", loader,
         "--unicode", dump params2]
    | some _ => ⟨m, some Err.typeError, []⟩

/-- Embedding of `BootMgr.delete` (src/bootmgr.py lines 212-223): look
up the label's boot number in `self.state` and execute a
`--delete-bootnum` command for it. -/
def delete (oracle : Oracle) (m : Mgr) (label : String) : StepRes :=
  match odLookup m.state label with
  | none => ⟨m, some (Err.keyError label), []⟩
  | some bootnum => execute oracle m ["efibootmgr", "--bootnum", bootnum, "--delete-bootnum"]

/-- Embedding of `BootMgr.deactivate` (src/bootmgr.py lines 225-236):
look up the label's boot number in `self.state` and execute an
`--inactive` command for it. -/
def deactivate (oracle : Oracle) (m : Mgr) (label : String) : StepRes :=
  match odLookup m.state label with
  | none => ⟨m, some (Err.keyError label), []⟩
  | some bootnum => execute oracle m ["efibootmgr", "--bootnum", bootnum, "--inactive"]

/-- Embedding of `BootMgr.activate` (src/bootmgr.py lines 238-249). -/
def activate (oracle : Oracle) (m : Mgr) (label : String) : StepRes :=
  match odLookup m.state label with
  | none => ⟨m, some (Err.keyError label), []⟩
  | some bootnum => execute oracle m ["efibootmgr", "--bootnum", bootnum, "--active"]

/-- Sequencing of method calls inside `sync`: a raised exception
propagates, skipping every later call; otherwise the next call runs on
the current manager and its issued commands are appended to the run's
trace. -/
def andThen (acc : StepRes) (step : Mgr → StepRes) : StepRes :=
  match acc.err with
  | some _ => acc
  | none =>
    let r := step acc.mgr
    ⟨r.mgr, r.err, acc.trace ++ r.trace⟩

/-- The body of the first loop of `BootMgr.sync` (src/bootmgr.py lines
181-187): a label found in the config is deleted (to be recreated), any
other label is deleted when `full_delete` is set and deactivated
otherwise. -/
def syncPhase1 (oracle : Oracle) (m : Mgr) (label : String) : StepRes :=
  if (odLookup m.config label).isSome then delete oracle m label
  else if m.full_delete then delete oracle m label
  else deactivate oracle m label

/-- Embedding of `BootMgr.sync` (src/bootmgr.py lines 173-194): iterate
over the labels of the state snapshot taken at entry, in reverse, doing
delete/deactivate; then iterate over the config's labels in reverse,
recreating every configured entry.  Any exception aborts the rest of
the run. -/
def sync (oracle : Oracle) (m : Mgr) : StepRes :=
  let acc :=
    ((m.state.map Prod.fst).reverse).foldl
      (fun acc label => andThen acc (fun m2 => syncPhase1 oracle m2 label))
      ⟨m, none, []⟩
  ((acc.mgr.config.map Prod.fst).reverse).foldl
    (fun acc label => andThen acc (fun m2 => create oracle m2 label))
    acc

/-- Embedding of `dict.update` as used by `BootMgr.load_config`: insert
every pair of the new dict, in its order, into the old dict, each
insertion overwriting in place or appending. -/
def dictUpdate (old new : List (String × PTree)) : List (String × PTree) :=
  new.foldl (fun acc kv => odInsert acc kv.1 kv.2) old

/-- Embedding of `BootMgr.load_config` (src/bootmgr.py lines 159-164)
applied to an already-parsed configuration source: merge it into
`self.config` with `dict.update` semantics. -/
def load_config (m : Mgr) (config : List (String × PTree)) : Mgr :=
  { m with config := dictUpdate m.config config }

end BootMgr

/-! ## Derived command shapes

The argument vectors the reconciliation run issues, expressed as
functions of the manager, for use in the statements below. -/

/-- The full argument vector `delete` issues for a label (with the
`--disk`/`--part` suffix appended by `execute`). -/
def delCmd (m : Mgr) (label : String) : Cmd :=
  ["efibootmgr", "--bootnum", (odLookup m.state label).getD "", "--delete-bootnum",
   "--disk", m.device, "--part", m.partition]

/-- The full argument vector `deactivate` issues for a label. -/
def deactCmd (m : Mgr) (label : String) : Cmd :=
  ["efibootmgr", "--bootnum", (odLookup m.state label).getD "", "--inactive",
   "--disk", m.device, "--part", m.partition]

/-- The command the first loop of `sync` issues for a label of the
observed state: a delete when the label is configured or `full_delete`
is set, a deactivate otherwise. -/
def phase1Cmd (m : Mgr) (label : String) : Cmd :=
  if (odLookup m.config label).isSome ∨ m.full_delete then delCmd m label else deactCmd m label

/-- The loader string popped from a parameter dict (empty if absent or
not a string). -/
def entryLoader (params : PTree) : String :=
  match BootMgr.popKey params "loader" with
  | some (PTree.s s, _) => s
  | _ => ""

/-- A parameter dict with its `loader` key popped. -/
def entryRest (params : PTree) : PTree :=
  match BootMgr.popKey params "loader" with
  | some (_, r) => r
  | none => params

/-- Whether a configured entry has a string `loader` key, so that
`create` reaches the external call. -/
def goodEntry (params : PTree) : Bool :=
  match BootMgr.popKey params "loader" with
  | some (PTree.s _, _) => true
  | _ => false

/-- The full argument vector `create` issues for a configured label:
note that it carries no boot number. -/
def createCmd (m : Mgr) (label : String) : Cmd :=
  ["efibootmgr", "--create", "--label", label,
   "--loader", entryLoader ((odLookup m.config label).getD PTree.fnil),
   "--unicode", dump (entryRest ((odLookup m.config label).getD PTree.fnil)),
   "--disk", m.device, "--part", m.partition]

/-- The trace of a whole `sync` run in a stable environment: the
phase-1 command of every observed label in reverse state order, then
the create of every configured label in reverse config order. -/
def stableTrace (m : Mgr) : List Cmd :=
  ((m.state.map Prod.fst).reverse).map (phase1Cmd m)
    ++ ((m.config.map Prod.fst).reverse).map (createCmd m)

/-! ## Ordered-dict lemmas -/

lemma odLookup_isSome_of_mem {m : List (String × α)} {k : String}
    (h : k ∈ m.map Prod.fst) : (odLookup m k).isSome := by
  induction m with
  | nil => simp at h
  | cons e rest ih =>
    rw [List.map_cons, List.mem_cons] at h
    by_cases hk : e.1 = k
    · simp [odLookup, hk]
    · rcases h with h | h
      · exact absurd h.symm hk
      · simpa [odLookup, hk] using ih h

lemma odLookup_mem {m : List (String × α)} {k : String} {v : α}
    (h : odLookup m k = some v) : (k, v) ∈ m := by
  induction m with
  | nil => simp [odLookup] at h
  | cons e rest ih =>
    obtain ⟨k1, v1⟩ := e
    by_cases hk : k1 = k
    · simp [odLookup, hk] at h
      subst hk
      subst h
      exact List.mem_cons_self _ _
    · simp [odLookup, hk] at h
      exact List.mem_cons_of_mem _ (ih h)

lemma odLookup_eq_none_of_notmem {m : List (String × α)} {k : String}
    (h : k ∉ m.map Prod.fst) : odLookup m k = none := by
  induction m with
  | nil => rfl
  | cons e rest ih =>
    rw [List.map_cons, List.mem_cons, not_or] at h
    have hk : e.1 ≠ k := fun hc => h.1 hc.symm
    simp [odLookup, hk, ih h.2]


/-! ## A stable environment

The lemmas below characterize a whole `sync` run in a stable
environment: the utility succeeds on every call and keeps reporting the
same state the manager already observed (`parse_efibootmgr out =
m.state`), so every refresh leaves the manager unchanged.  This is the
"no external interference" scenario of the specification's idempotence
and deletion-policy properties. -/

lemma execute_stable (oracle : Oracle) (out : String) (m : Mgr) (cmd : Cmd)
    (hOr : ∀ c, oracle c = Except.ok out) (hPar : parse_efibootmgr out = m.state)
    (hcmd : cmd.head? = some "efibootmgr") :
    BootMgr.execute oracle m cmd
      = ⟨m, none, [cmd ++ ["--disk", m.device] ++ ["--part", m.partition]]⟩ := by
  unfold BootMgr.execute
  rw [if_neg (by simp [hcmd])]
  simp [hOr, hPar]

lemma delete_stable (oracle : Oracle) (out : String) (m : Mgr) (label : String)
    (hOr : ∀ c, oracle c = Except.ok out) (hPar : parse_efibootmgr out = m.state)
    (h : label ∈ m.state.map Prod.fst) :
    BootMgr.delete oracle m label = ⟨m, none, [delCmd m label]⟩ := by
  obtain ⟨b, hb⟩ := Option.isSome_iff_exists.mp (odLookup_isSome_of_mem h)
  simp only [BootMgr.delete, hb]
  rw [execute_stable oracle out m _ hOr hPar (by rfl)]
  simp [delCmd, hb]

lemma deactivate_stable (oracle : Oracle) (out : String) (m : Mgr) (label : String)
    (hOr : ∀ c, oracle c = Except.ok out) (hPar : parse_efibootmgr out = m.state)
    (h : label ∈ m.state.map Prod.fst) :
    BootMgr.deactivate oracle m label = ⟨m, none, [deactCmd m label]⟩ := by
  obtain ⟨b, hb⟩ := Option.isSome_iff_exists.mp (odLookup_isSome_of_mem h)
  simp only [BootMgr.deactivate, hb]
  rw [execute_stable oracle out m _ hOr hPar (by rfl)]
  simp [deactCmd, hb]

lemma create_stable (oracle : Oracle) (out : String) (m : Mgr) (label : String) (params : PTree)
    (hOr : ∀ c, oracle c = Except.ok out) (hPar : parse_efibootmgr out = m.state)
    (hc : odLookup m.config label = some params) (hg : goodEntry params = true) :
    BootMgr.create oracle m label = ⟨m, none, [createCmd m label]⟩ := by
  unfold goodEntry at hg
  rcases hp : BootMgr.popKey params "loader" with _ | ⟨v, r⟩
  · rw [hp] at hg; simp at hg
  · rcases v with b | s | _ | _ <;> rw [hp] at hg <;> try simp at hg
    · simp only [BootMgr.create, hc, hp]
      rw [execute_stable oracle out m _ hOr hPar (by rfl)]
      simp [createCmd, entryLoader, entryRest, hc, hp]

lemma syncPhase1_stable (oracle : Oracle) (out : String) (m : Mgr) (label : String)
    (hOr : ∀ c, oracle c = Except.ok out) (hPar : parse_efibootmgr out = m.state)
    (h : label ∈ m.state.map Prod.fst) :
    BootMgr.syncPhase1 oracle m label = ⟨m, none, [phase1Cmd m label]⟩ := by
  by_cases h1 : (odLookup m.config label).isSome
  · simp only [BootMgr.syncPhase1, phase1Cmd, h1, if_pos, true_or, if_true]
    exact delete_stable oracle out m label hOr hPar h
  · by_cases h2 : m.full_delete
    · simp only [BootMgr.syncPhase1, phase1Cmd, h1, h2, if_false, if_true, false_or]
      exact delete_stable oracle out m label hOr hPar h
    · simp only [BootMgr.syncPhase1, phase1Cmd, h1, h2, if_false, false_or]
      exact deactivate_stable oracle out m label hOr hPar h

lemma foldl_andThen_stable (m : Mgr) (step : Mgr → String → StepRes) (f : String → Cmd) :
    ∀ (ls : List String) (t : List Cmd), (∀ l ∈ ls, step m l = ⟨m, none, [f l]⟩) →
    ls.foldl (fun acc label => BootMgr.andThen acc (fun m2 => step m2 label)) ⟨m, none, t⟩
      = ⟨m, none, t ++ ls.map f⟩
  | [], t, _ => by simp
  | l :: ls, t, h => by
    rw [List.foldl_cons]
    have h1 : BootMgr.andThen ⟨m, none, t⟩ (fun m2 => step m2 l) = ⟨m, none, t ++ [f l]⟩ := by
      simp [BootMgr.andThen, h l (List.mem_cons_self _ _)]
    rw [h1, foldl_andThen_stable m step f ls (t ++ [f l])
      (fun x hx => h x (List.mem_cons_of_mem _ hx))]
    simp

/-- In a stable environment a `sync` run succeeds, leaves the manager
unchanged, and issues exactly the commands of `stableTrace`. -/
theorem sync_stable (oracle : Oracle) (out : String) (m : Mgr)
    (hOr : ∀ c, oracle c = Except.ok out) (hPar : parse_efibootmgr out = m.state)
    (hCfg : ∀ kv ∈ m.config, goodEntry kv.2 = true) :
    BootMgr.sync oracle m = ⟨m, none, stableTrace m⟩ := by
  unfold BootMgr.sync
  have h1 := foldl_andThen_stable m (fun m2 label => BootMgr.syncPhase1 oracle m2 label)
    (phase1Cmd m) ((m.state.map Prod.fst).reverse) []
    (fun l hl => syncPhase1_stable oracle out m l hOr hPar (List.mem_reverse.mp hl))
  rw [h1]
  have h2 := foldl_andThen_stable m (fun m2 label => BootMgr.create oracle m2 label)
    (createCmd m) ((m.config.map Prod.fst).reverse)
    (((m.state.map Prod.fst).reverse).map (phase1Cmd m))
    (fun l hl => by
      obtain ⟨params, hp⟩ := Option.isSome_iff_exists.mp
        (odLookup_isSome_of_mem (List.mem_reverse.mp hl))
      exact create_stable oracle out m l params hOr hPar hp
        (hCfg (l, params) (odLookup_mem hp)))
  simpa [stableTrace] using h2

/-! ## Fail-fast behavior of a run -/

/-- Every command of the trace got a successful response. -/
def OkTrace (oracle : Oracle) (t : List Cmd) : Prop :=
  ∀ c ∈ t, ∃ o, oracle c = Except.ok o

/-- What a single method call can do to the trace: on success every
issued command succeeded; a `BootMgrError` comes from exactly one
issued command, which the utility answered with the stderr text the
error's message was built from; any other exception issues no
command. -/
def OpSpec (oracle : Oracle) (r : StepRes) : Prop :=
  (r.err = none → OkTrace oracle r.trace) ∧
  (∀ msg, r.err = some (Err.bootMgrError msg) →
     ∃ c s, r.trace = [c] ∧ oracle c = Except.error s ∧ msg = s.dropRight 1) ∧
  (∀ e, r.err = some e → (∀ msg, e ≠ Err.bootMgrError msg) → r.trace = [])

lemma opSpec_of_no_cmd (oracle : Oracle) (m : Mgr) (e : Err)
    (h : ∀ msg, e ≠ Err.bootMgrError msg) :
    OpSpec oracle ⟨m, some e, []⟩ := by
  refine ⟨by simp, ?_, fun _ _ _ => rfl⟩
  intro msg hmsg
  exact absurd (Option.some.inj hmsg) (h msg)

lemma opSpec_execute (oracle : Oracle) (m : Mgr) (cmd : Cmd) :
    OpSpec oracle (BootMgr.execute oracle m cmd) := by
  unfold BootMgr.execute
  by_cases hc : cmd.head? ≠ some "efibootmgr"
  · rw [if_pos hc]
    exact opSpec_of_no_cmd oracle m Err.assertionError (fun _ h => Err.noConfusion h)
  · rw [if_neg hc]
    rcases ho : oracle (cmd ++ ["--disk", m.device] ++ ["--part", m.partition]) with s | o
    · simp only [ho]
      refine ⟨by simp, ?_, ?_⟩
      · intro msg hmsg
        simp at hmsg
        exact ⟨_, s, rfl, ho, hmsg.symm⟩
      · intro e he hne
        simp at he
        exact absurd he.symm (hne (s.dropRight 1))
    · simp only [ho]
      refine ⟨?_, by simp, by simp⟩
      intro _ c hcmem
      rw [List.mem_singleton] at hcmem
      exact ⟨o, hcmem ▸ ho⟩

lemma opSpec_delete (oracle : Oracle) (m : Mgr) (label : String) :
    OpSpec oracle (BootMgr.delete oracle m label) := by
  unfold BootMgr.delete
  rcases h : odLookup m.state label with _ | b
  · exact opSpec_of_no_cmd oracle m (Err.keyError label) (fun _ h => Err.noConfusion h)
  · exact opSpec_execute oracle m _

lemma opSpec_deactivate (oracle : Oracle) (m : Mgr) (label : String) :
    OpSpec oracle (BootMgr.deactivate oracle m label) := by
  unfold BootMgr.deactivate
  rcases h : odLookup m.state label with _ | b
  · exact opSpec_of_no_cmd oracle m (Err.keyError label) (fun _ h => Err.noConfusion h)
  · exact opSpec_execute oracle m _

lemma opSpec_create (oracle : Oracle) (m : Mgr) (label : String) :
    OpSpec oracle (BootMgr.create oracle m label) := by
  rcases h : odLookup m.config label with _ | params
  · simp only [BootMgr.create, h]
    exact opSpec_of_no_cmd oracle m (Err.keyError label) (fun _ h => Err.noConfusion h)
  · simp only [BootMgr.create, h]
    rcases hp : BootMgr.popKey params "loader" with _ | ⟨v, r⟩
    · exact opSpec_of_no_cmd oracle m (Err.keyError "loader") (fun _ h => Err.noConfusion h)
    · rcases v with b | s | _ | _
      · exact opSpec_of_no_cmd oracle m Err.typeError (fun _ h => Err.noConfusion h)
      · exact opSpec_execute oracle m _
      · exact opSpec_of_no_cmd oracle m Err.typeError (fun _ h => Err.noConfusion h)
      · exact opSpec_of_no_cmd oracle m Err.typeError (fun _ h => Err.noConfusion h)

lemma opSpec_syncPhase1 (oracle : Oracle) (m : Mgr) (label : String) :
    OpSpec oracle (BootMgr.syncPhase1 oracle m label) := by
  unfold BootMgr.syncPhase1
  by_cases h1 : (odLookup m.config label).isSome
  · simpa [h1] using opSpec_delete oracle m label
  · by_cases h2 : m.full_delete
    · simpa [h1, h2] using opSpec_delete oracle m label
    · simpa [h1, h2] using opSpec_deactivate oracle m label

/-- The run-level fail-fast invariant: while no exception is pending
the whole trace consists of succeeded commands, and once a
`BootMgrError` is pending the trace ends at the failing command, every
earlier command succeeded, and the message is the failing command's
stderr minus its last character. -/
def RunInv (oracle : Oracle) (r : StepRes) : Prop :=
  (r.err = none → OkTrace oracle r.trace) ∧
  (∀ msg, r.err = some (Err.bootMgrError msg) →
     ∃ c s, r.trace.getLast? = some c ∧ oracle c = Except.error s ∧ msg = s.dropRight 1 ∧
       OkTrace oracle r.trace.dropLast)

lemma runInv_andThen (oracle : Oracle) (acc : StepRes) (step : Mgr → StepRes)
    (hacc : RunInv oracle acc) (hstep : ∀ m2, OpSpec oracle (step m2)) :
    RunInv oracle (BootMgr.andThen acc step) := by
  unfold BootMgr.andThen
  rcases he : acc.err with _ | e
  · simp only [he]
    obtain ⟨hs1, hs2, hs3⟩ := hstep acc.mgr
    have hok : OkTrace oracle acc.trace := hacc.1 he
    constructor
    · intro h0 c hc
      rcases List.mem_append.mp hc with h | h
      · exact hok c h
      · exact hs1 h0 c h
    · intro msg hmsg
      obtain ⟨c, s, ht, hos, hm⟩ := hs2 msg hmsg
      refine ⟨c, s, ?_, hos, hm, ?_⟩
      · rw [ht, List.getLast?_concat]
      · rw [ht, List.dropLast_concat]
        exact hok
  · simp only [he]
    exact hacc

lemma runInv_foldl (oracle : Oracle) (step : Mgr → String → StepRes)
    (hstep : ∀ m2 l, OpSpec oracle (step m2 l)) :
    ∀ (ls : List String) (acc : StepRes), RunInv oracle acc →
      RunInv oracle
        (ls.foldl (fun acc label => BootMgr.andThen acc (fun m2 => step m2 label)) acc)
  | [], acc, hacc => hacc
  | l :: ls, acc, hacc => by
    rw [List.foldl_cons]
    exact runInv_foldl oracle step hstep ls _
      (runInv_andThen oracle acc _ hacc (fun m2 => hstep m2 l))

lemma runInv_sync (oracle : Oracle) (m : Mgr) : RunInv oracle (BootMgr.sync oracle m) := by
  unfold BootMgr.sync
  refine runInv_foldl oracle _ (fun m2 l => opSpec_create oracle m2 l) _ _
    (runInv_foldl oracle _ (fun m2 l => opSpec_syncPhase1 oracle m2 l) _ _ ?_)
  exact ⟨fun _ => by simp [OkTrace], fun msg h => by simp at h⟩

/-! ## Characterization of the reorder loop of the state parser -/

/-- The first entry of the map whose boot number is `b` (the entry the
reorder loop's inner scan finds). -/
def firstWithId (es : List (String × String)) (b : String) : Option (String × String) :=
  match es with
  | [] => none
  | e :: rest => if e.2 = b then some e else firstWithId rest b

lemma move_to_end_of_split (b : String) :
    ∀ (l1 l2 : List (String × String)) (e : String × String),
      e.2 = b → (∀ x ∈ l1, x.2 ≠ b) →
      move_to_end (l1 ++ e :: l2) b = l1 ++ l2 ++ [e]
  | [], l2, e, he, _ => by simp [move_to_end, he]
  | x :: l1, l2, e, he, hx => by
    have hxne : x.2 ≠ b := hx x (List.mem_cons_self _ _)
    simp only [List.cons_append, move_to_end, if_neg hxne]
    exact congrArg (List.cons x)
      (move_to_end_of_split b l1 l2 e he (fun y hy => hx y (List.mem_cons_of_mem _ hy)))

lemma exists_first_split {es : List (String × String)} {b : String}
    (h : b ∈ es.map Prod.snd) :
    ∃ l1 e l2, es = l1 ++ e :: l2 ∧ e.2 = b ∧ ∀ x ∈ l1, x.2 ≠ b := by
  induction es with
  | nil => simp at h
  | cons x rest ih =>
    by_cases hx : x.2 = b
    · exact ⟨[], x, rest, by simp, hx, by simp⟩
    · rw [List.map_cons, List.mem_cons] at h
      rcases h with h | h
      · exact absurd h.symm hx
      · obtain ⟨l1, e, l2, hsp, he, hfst⟩ := ih h
        refine ⟨x :: l1, e, l2, by rw [hsp]; rfl, he, ?_⟩
        intro y hy
        rcases List.mem_cons.mp hy with rfl | hy
        · exact hx
        · exact hfst y hy

lemma firstWithId_of_split (b : String) :
    ∀ (l1 l2 : List (String × String)) (e : String × String),
      e.2 = b → (∀ x ∈ l1, x.2 ≠ b) →
      firstWithId (l1 ++ e :: l2) b = some e
  | [], l2, e, he, _ => by simp [firstWithId, he]
  | x :: l1, l2, e, he, hx => by
    have hxne : x.2 ≠ b := hx x (List.mem_cons_self _ _)
    simp only [List.cons_append, firstWithId, if_neg hxne]
    exact firstWithId_of_split b l1 l2 e he (fun y hy => hx y (List.mem_cons_of_mem _ hy))

lemma firstWithId_unique {es : List (String × String)} {b : String}
    (hnd : (es.map Prod.snd).Nodup) {x : String × String}
    (hx : x ∈ es) (hb : x.2 = b) : firstWithId es b = some x := by
  induction es with
  | nil => simp at hx
  | cons y rest ih =>
    rw [List.map_cons] at hnd
    have hnd' := List.nodup_cons.mp hnd
    by_cases hy : y.2 = b
    · rcases List.mem_cons.mp hx with rfl | hx2
      · simp [firstWithId, hy]
      · exact absurd (show y.2 ∈ rest.map Prod.snd from by
          rw [hy, ← hb]; exact List.mem_map_of_mem Prod.snd hx2) hnd'.1
    · rcases List.mem_cons.mp hx with rfl | hx2
      · exact absurd hb hy
      · simp only [firstWithId, if_neg hy]
        exact ih hnd'.2 hx2

lemma foldl_move_to_end_char (ord : List String) (es : List (String × String))
    (hnd : (es.map Prod.snd).Nodup) (hond : ord.Nodup)
    (hsub : ∀ b ∈ ord, b ∈ es.map Prod.snd) :
    ord.foldl move_to_end es
      = es.filter (fun e => decide (e.2 ∉ ord)) ++ ord.filterMap (firstWithId es) := by
  induction ord generalizing es with
  | nil => simp
  | cons b bs ih =>
    obtain ⟨l1, e, l2, hsp, he, hfst⟩ := exists_first_split (hsub b (by simp))
    subst hsp
    have hmv : move_to_end (l1 ++ e :: l2) b = l1 ++ l2 ++ [e] :=
      move_to_end_of_split b l1 l2 e he hfst
    have hperm : (l1 ++ l2 ++ [e]).Perm (l1 ++ e :: l2) := by
      rw [List.append_assoc]
      exact (List.perm_append_singleton e l2).append_left l1
    have hnd2 : ((l1 ++ l2 ++ [e]).map Prod.snd).Nodup :=
      ((hperm.map Prod.snd).nodup_iff).mpr hnd
    have hcons := List.nodup_cons.mp hond
    have hsub2 : ∀ b' ∈ bs, b' ∈ (l1 ++ l2 ++ [e]).map Prod.snd :=
      fun b' hb' => ((hperm.map Prod.snd).mem_iff).mpr (hsub b' (List.mem_cons_of_mem _ hb'))
    rw [List.foldl_cons, hmv, ih _ hnd2 hcons.2 hsub2]
    -- elements of l1 and l2 have boot numbers different from b
    have hl2 : ∀ x ∈ l2, x.2 ≠ b := by
      intro x hx hxb
      have hnd4 : (l1.map Prod.snd ++ e.2 :: l2.map Prod.snd).Nodup := by
        simpa using hnd
      have hnd3 : (e.2 :: l2.map Prod.snd).Nodup := (List.nodup_append.mp hnd4).2.1
      exact (List.nodup_cons.mp hnd3).1 (by rw [he, ← hxb]; exact List.mem_map_of_mem Prod.snd hx)
    -- filter over the moved list
    have hPe : (decide (e.2 ∉ bs)) = true := by
      simp only [decide_eq_true_eq]
      rw [he]; exact hcons.1
    have hfil1 : ∀ x ∈ l1, (decide (x.2 ∉ bs)) = (decide (x.2 ∉ b :: bs)) := by
      intro x hx
      have := hfst x hx
      simp [List.mem_cons, this]
    have hfil2 : ∀ x ∈ l2, (decide (x.2 ∉ bs)) = (decide (x.2 ∉ b :: bs)) := by
      intro x hx
      have := hl2 x hx
      simp [List.mem_cons, this]
    -- the lookups used by the tail of the order list are unchanged
    have hfm : bs.filterMap (firstWithId (l1 ++ l2 ++ [e]))
        = bs.filterMap (firstWithId (l1 ++ e :: l2)) := by
      apply List.filterMap_congr
      intro b' hb'
      obtain ⟨x, hxmem, hxb⟩ := List.mem_map.mp (hsub b' (List.mem_cons_of_mem _ hb'))
      rw [firstWithId_unique hnd2 (((hperm.mem_iff)).mpr hxmem) hxb,
        firstWithId_unique hnd hxmem hxb]
    have hhead : firstWithId (l1 ++ e :: l2) b = some e := firstWithId_of_split b l1 l2 e he hfst
    rw [hfm]
    simp only [List.filter_append, List.filter_cons, hPe, List.filterMap_cons, hhead]
    rw [List.filter_congr hfil1, List.filter_congr hfil2]
    simp [List.filter_cons, he, List.mem_cons]

/-! ## Characterization of the configuration merge -/

lemma odInsert_keys_of_mem {old : List (String × α)} {k : String} (v : α)
    (h : k ∈ old.map Prod.fst) :
    (odInsert old k v).map Prod.fst = old.map Prod.fst := by
  induction old with
  | nil => simp at h
  | cons x rest ih =>
    rw [List.map_cons, List.mem_cons] at h
    by_cases hk : x.1 = k
    · simp [odInsert, hk]
    · rcases h with h | h
      · exact absurd h.symm hk
      · simp [odInsert, hk, ih h]

lemma odInsert_of_notmem {old : List (String × α)} {k : String} (v : α)
    (h : k ∉ old.map Prod.fst) :
    odInsert old k v = old ++ [(k, v)] := by
  induction old with
  | nil => rfl
  | cons x rest ih =>
    rw [List.map_cons, List.mem_cons, not_or] at h
    have hk : x.1 ≠ k := fun hc => h.1 hc.symm
    simp [odInsert, hk, ih h.2]

lemma odInsert_of_mem {old : List (String × α)} {k : String} (v : α)
    (hnd : (old.map Prod.fst).Nodup) (h : k ∈ old.map Prod.fst) :
    odInsert old k v = old.map (fun e => if e.1 = k then (k, v) else e) := by
  induction old with
  | nil => simp at h
  | cons x rest ih =>
    rw [List.map_cons] at hnd
    rw [List.map_cons, List.mem_cons] at h
    have hc := List.nodup_cons.mp hnd
    by_cases hk : x.1 = k
    · simp only [odInsert, if_pos hk, List.map_cons, if_pos hk]
      congr 1
      have hrest : ∀ e ∈ rest, (if e.1 = k then (k, v) else e) = e := by
        intro e he
        rw [if_neg]
        intro hek
        exact hc.1 (hk ▸ hek ▸ List.mem_map_of_mem Prod.fst he)
      simpa using (List.map_congr_left hrest).symm
    · rcases h with h | h
      · exact absurd h.symm hk
      · simp only [odInsert, if_neg hk, List.map_cons, if_neg hk]
        congr 1
        exact ih hc.2 h

lemma odLookup_isNone_eq_of_keys_eq {m1 m2 : List (String × α)}
    (h : m1.map Prod.fst = m2.map Prod.fst) (k : String) :
    (odLookup m1 k).isNone = (odLookup m2 k).isNone := by
  by_cases hk : k ∈ m2.map Prod.fst
  · obtain ⟨v1, e1⟩ := Option.isSome_iff_exists.mp (odLookup_isSome_of_mem (h ▸ hk))
    obtain ⟨v2, e2⟩ := Option.isSome_iff_exists.mp (odLookup_isSome_of_mem hk)
    rw [e1, e2]
    rfl
  · rw [odLookup_eq_none_of_notmem (h ▸ hk), odLookup_eq_none_of_notmem hk]

lemma odLookup_append_singleton_ne {old : List (String × α)} {k x : String} (v : α)
    (h : x ≠ k) : odLookup (old ++ [(k, v)]) x = odLookup old x := by
  induction old with
  | nil =>
    have hkx : k ≠ x := fun hc => h hc.symm
    simp [odLookup, hkx]
  | cons e rest ih =>
    by_cases he : e.1 = x
    · simp [odLookup, he]
    · simp [odLookup, he, ih]

lemma dictUpdate_char (new : List (String × PTree)) :
    ∀ (old : List (String × PTree)),
      (old.map Prod.fst).Nodup → (new.map Prod.fst).Nodup →
      BootMgr.dictUpdate old new
        = old.map (fun e => (e.1, (odLookup new e.1).getD e.2))
          ++ new.filter (fun e => (odLookup old e.1).isNone) := by
  induction new with
  | nil =>
    intro old hold hnew
    simp [BootMgr.dictUpdate, odLookup]
  | cons kv rest ih =>
    intro old hold hnew
    obtain ⟨k, v⟩ := kv
    rw [List.map_cons] at hnew
    have hnc := List.nodup_cons.mp hnew
    have hkrest : odLookup rest k = none := odLookup_eq_none_of_notmem hnc.1
    have hstep : BootMgr.dictUpdate old ((k, v) :: rest)
        = BootMgr.dictUpdate (odInsert old k v) rest := by
      simp [BootMgr.dictUpdate]
    rw [hstep]
    by_cases hk : k ∈ old.map Prod.fst
    · have hkeys : (odInsert old k v).map Prod.fst = old.map Prod.fst :=
        odInsert_keys_of_mem v hk
      rw [ih (odInsert old k v) (hkeys ▸ hold) hnc.2, odInsert_of_mem v hold hk]
      have hmap : (old.map (fun e => if e.1 = k then (k, v) else e)).map
            (fun e => (e.1, (odLookup rest e.1).getD e.2))
          = old.map (fun e => (e.1, (odLookup ((k, v) :: rest) e.1).getD e.2)) := by
        rw [List.map_map]
        apply List.map_congr_left
        intro e he
        by_cases hek : e.1 = k
        · simp [Function.comp, hek, odLookup, hkrest]
        · have hke : k ≠ e.1 := fun hc => hek hc.symm
          simp [Function.comp, hek, odLookup, hke]
      have hfil : rest.filter
            (fun e => (odLookup (old.map (fun e => if e.1 = k then (k, v) else e)) e.1).isNone)
          = rest.filter (fun e => (odLookup old e.1).isNone) := by
        apply List.filter_congr
        intro e _
        have hkeq : (old.map (fun e => if e.1 = k then (k, v) else e)).map Prod.fst
            = old.map Prod.fst := by
          rw [← odInsert_of_mem v hold hk, odInsert_keys_of_mem v hk]
        rw [odLookup_isNone_eq_of_keys_eq hkeq e.1]
      have hdrop : ((k, v) :: rest).filter (fun e => (odLookup old e.1).isNone)
          = rest.filter (fun e => (odLookup old e.1).isNone) := by
        obtain ⟨v1, e1⟩ := Option.isSome_iff_exists.mp (odLookup_isSome_of_mem hk)
        simp [List.filter_cons, e1]
      rw [hmap, hfil, hdrop]
    · have hins : odInsert old k v = old ++ [(k, v)] := odInsert_of_notmem v hk
      have hkeys : (odInsert old k v).map Prod.fst = old.map Prod.fst ++ [k] := by
        rw [hins]; simp
      have hnd2 : ((odInsert old k v).map Prod.fst).Nodup := by
        rw [hkeys]
        rw [List.nodup_append]
        refine ⟨hold, List.nodup_singleton k, ?_⟩
        intro a ha
        rw [List.mem_singleton]
        intro hak
        exact hk (hak ▸ ha)
      rw [ih (odInsert old k v) hnd2 hnc.2, hins]
      have hmap : (old ++ [(k, v)]).map (fun e => (e.1, (odLookup rest e.1).getD e.2))
          = old.map (fun e => (e.1, (odLookup ((k, v) :: rest) e.1).getD e.2)) ++ [(k, v)] := by
        rw [List.map_append]
        congr 1
        · apply List.map_congr_left
          intro e he
          have hek : k ≠ e.1 := by
            intro hc
            apply hk
            rw [hc]
            exact List.mem_map_of_mem Prod.fst he
          simp [odLookup, hek]
        · simp [hkrest]
      have hfil : rest.filter (fun e => (odLookup (old ++ [(k, v)]) e.1).isNone)
          = rest.filter (fun e => (odLookup old e.1).isNone) := by
        apply List.filter_congr
        intro e he
        have hek : e.1 ≠ k := by
          intro hc
          apply hnc.1
          rw [← hc]
          show e.1 ∈ rest.map Prod.fst
          exact List.mem_map_of_mem Prod.fst he
        rw [odLookup_append_singleton_ne v hek]
      have hdrop : ((k, v) :: rest).filter (fun e => (odLookup old e.1).isNone)
          = (k, v) :: rest.filter (fun e => (odLookup old e.1).isNone) := by
        simp [List.filter_cons, odLookup_eq_none_of_notmem hk]
      rw [hmap, hfil, hdrop]
      simp

/-! ## Auxiliary facts about single calls -/

lemma execute_trace (oracle : Oracle) (m : Mgr) (cmd : Cmd)
    (h : cmd.head? = some "efibootmgr") :
    (BootMgr.execute oracle m cmd).trace
      = [cmd ++ ["--disk", m.device] ++ ["--part", m.partition]] := by
  unfold BootMgr.execute
  rw [if_neg (by simp [h])]
  rcases ho : oracle (cmd ++ ["--disk", m.device] ++ ["--part", m.partition]) with s | o <;> rfl

lemma execute_mgr_fields (oracle : Oracle) (m : Mgr) (cmd : Cmd) :
    (BootMgr.execute oracle m cmd).mgr.config = m.config
      ∧ (BootMgr.execute oracle m cmd).mgr.device = m.device
      ∧ (BootMgr.execute oracle m cmd).mgr.partition = m.partition := by
  unfold BootMgr.execute
  by_cases hc : cmd.head? ≠ some "efibootmgr"
  · rw [if_pos hc]
    simp
  · rw [if_neg hc]
    rcases ho : oracle (cmd ++ ["--disk", m.device] ++ ["--part", m.partition]) with s | o <;>
      exact ⟨rfl, rfl, rfl⟩

lemma create_mgr_fields (oracle : Oracle) (m : Mgr) (label : String) :
    (BootMgr.create oracle m label).mgr.config = m.config
      ∧ (BootMgr.create oracle m label).mgr.device = m.device
      ∧ (BootMgr.create oracle m label).mgr.partition = m.partition := by
  rcases h : odLookup m.config label with _ | params
  · simp only [BootMgr.create, h]
    exact ⟨trivial, trivial, trivial⟩
  · rcases hpk : BootMgr.popKey params "loader" with _ | ⟨v, r⟩
    · simp only [BootMgr.create, h, hpk]
      exact ⟨trivial, trivial, trivial⟩
    · rcases v with b | s | _ | _ <;> simp only [BootMgr.create, h, hpk]
      · exact ⟨trivial, trivial, trivial⟩
      · exact execute_mgr_fields oracle m _
      · exact ⟨trivial, trivial, trivial⟩
      · exact ⟨trivial, trivial, trivial⟩

lemma create_trace_congr (oracle : Oracle) (m1 m2 : Mgr) (label : String)
    (hc : m1.config = m2.config) (hd : m1.device = m2.device) (hp : m1.partition = m2.partition) :
    (BootMgr.create oracle m1 label).trace = (BootMgr.create oracle m2 label).trace := by
  rcases h : odLookup m2.config label with _ | params
  · simp only [BootMgr.create, hc, h]
  · rcases hpk : BootMgr.popKey params "loader" with _ | ⟨v, r⟩
    · simp only [BootMgr.create, hc, h, hpk]
    · rcases v with b | s | _ | _ <;> simp only [BootMgr.create, hc, h, hpk]
      · rw [execute_trace oracle m1
            ["efibootmgr", "--create", "--label", label, "--loader", s, "--unicode", dump r] rfl,
          execute_trace oracle m2
            ["efibootmgr", "--create", "--label", label, "--loader", s, "--unicode", dump r] rfl,
          hd, hp]

/-! ## Concrete scenarios used by the witnesses and counterexamples -/

/-- A report listing entries `A` (id 0001) and `B` (id 0002). -/
def exOut : String := "Boot0001* A\nBoot0002* B"

/-- A configured entry with a loader and one boolean parameter. -/
def exCfgA : PTree :=
  PTree.fcons "loader" (PTree.s "/vmlinuz-a") (PTree.fcons "quiet" (PTree.b true) PTree.fnil)

/-- A configured entry with only a loader. -/
def exCfgB : PTree := PTree.fcons "loader" (PTree.s "/vmlinuz-b") PTree.fnil

/-- A manager whose desired config is `A, B` and whose observed state
already contains both labels (the second-run situation). -/
def exMgr : Mgr :=
  ⟨"/dev/sda", "1", false, [("A", exCfgA), ("B", exCfgB)], [("A", "0001"), ("B", "0002")]⟩

/-- A utility that always succeeds and keeps reporting `exOut`. -/
def exOracle : Oracle := fun _ => Except.ok exOut

/-- A report listing entries `A` (id 0001) and `C` (id 0003). -/
def exOut5 : String := "Boot0001* A\nBoot0003* C"

/-- A manager observing an unmanaged label `C`, with `full_delete`
disabled. -/
def exMgr5 : Mgr :=
  ⟨"/dev/sda", "1", false, [("A", exCfgA)], [("A", "0001"), ("C", "0003")]⟩

/-- The same manager with `full_delete` enabled. -/
def exMgr5D : Mgr :=
  ⟨"/dev/sda", "1", true, [("A", exCfgA)], [("A", "0001"), ("C", "0003")]⟩

/-- A utility that always succeeds and keeps reporting `exOut5`. -/
def exOracle5 : Oracle := fun _ => Except.ok exOut5

/-- A utility that fails (exit status non-zero, stderr `boom\n`) on any
create command and succeeds otherwise. -/
def exOracle6 : Oracle :=
  fun cmd => if cmd.contains "--create" then Except.error "boom\n" else Except.ok exOut

/-- The report of the C3 example, with the utility's two-character
marker column (`* ` for an active entry, two spaces for an inactive
one) before each label. -/
def exReport : String :=
  "BootOrder: 0001,0003,0002\nBoot0001* Linux\nBoot0002  Windows\nBoot0003* Recovery"

/-- A report with an entry (`Extra`, id 0009) whose id does not occur
in the order line. -/
def exReport2 : String :=
  "BootOrder: 0002,0001\nBoot0001* Linux\nBoot0009* Extra\nBoot0002  Windows"

/-! ## Claim theorems -/

/-- C1 (amended): in a stable environment, for every label present in
both the observed state and the desired config, the reconciliation run
deletes the entry by its existing boot number (`delCmd`) and then
issues a create carrying no boot number at all (`createCmd`); it never
updates the entry in place. -/
theorem c1_sync_deletes_and_recreates_known_labels
    (oracle : Oracle) (out : String) (m : Mgr) (label : String)
    (hOr : ∀ c, oracle c = Except.ok out) (hPar : parse_efibootmgr out = m.state)
    (hCfg : ∀ kv ∈ m.config, goodEntry kv.2 = true)
    (hobs : label ∈ m.state.map Prod.fst) (hdes : label ∈ m.config.map Prod.fst) :
    delCmd m label ∈ (BootMgr.sync oracle m).trace
      ∧ createCmd m label ∈ (BootMgr.sync oracle m).trace := by
  rw [sync_stable oracle out m hOr hPar hCfg]
  show delCmd m label ∈ stableTrace m ∧ createCmd m label ∈ stableTrace m
  unfold stableTrace
  constructor
  · apply List.mem_append_left
    have h1 : (odLookup m.config label).isSome := odLookup_isSome_of_mem hdes
    have h2 : phase1Cmd m label = delCmd m label := by simp [phase1Cmd, h1]
    rw [← h2]
    exact List.mem_map_of_mem _ (List.mem_reverse.mpr hobs)
  · apply List.mem_append_right
    exact List.mem_map_of_mem _ (List.mem_reverse.mpr hdes)

/-- Witness for C1: in the concrete second-run scenario (`exMgr`
observes both desired labels), the run issues a delete of label `A` by
its existing id and a create of `A` with no id. -/
theorem c1_sync_deletes_and_recreates_known_labels_witness :
    delCmd exMgr "A" ∈ (BootMgr.sync exOracle exMgr).trace
      ∧ createCmd exMgr "A" ∈ (BootMgr.sync exOracle exMgr).trace :=
  c1_sync_deletes_and_recreates_known_labels exOracle exOut exMgr "A"
    (fun _ => rfl) (by decide) (by decide) (by decide) (by decide)

/-- Counterexample to C1 as stated: in the second-run scenario the
engine deletes `A` by its existing id 0001 and issues a create for `A`;
no issued command is an update-in-place — every command carrying
`--bootnum` (an existing id) is a delete, and no create carries a
`--bootnum`. -/
theorem c1_counterexample :
    (["efibootmgr", "--bootnum", "0001", "--delete-bootnum",
        "--disk", "/dev/sda", "--part", "1"] ∈ (BootMgr.sync exOracle exMgr).trace)
      ∧ (["efibootmgr", "--create", "--label", "A", "--loader", "/vmlinuz-a",
          "--unicode", "quiet", "--disk", "/dev/sda", "--part", "1"]
            ∈ (BootMgr.sync exOracle exMgr).trace)
      ∧ (∀ c ∈ (BootMgr.sync exOracle exMgr).trace, "--create" ∈ c → "--bootnum" ∉ c)
      ∧ (∀ c ∈ (BootMgr.sync exOracle exMgr).trace,
            "--bootnum" ∈ c → "--delete-bootnum" ∈ c) := by
  decide

/-- C2 (amended): in a stable environment a reconciliation run issues
no reorder operation at all: the operation flag of every issued command
(the element after the utility name) is `--bootnum` or `--create`,
never `--bootorder`; and the run's final mutating command is the create
of the first-declared desired label (the engine creates entries in
reverse declared order, relying on the firmware's LIFO default order
instead of an explicit reorder). -/
theorem c2_sync_issues_no_reorder
    (oracle : Oracle) (out : String) (m : Mgr)
    (hOr : ∀ c, oracle c = Except.ok out) (hPar : parse_efibootmgr out = m.state)
    (hCfg : ∀ kv ∈ m.config, goodEntry kv.2 = true) :
    (∀ c ∈ (BootMgr.sync oracle m).trace,
        c.get? 1 = some "--bootnum" ∨ c.get? 1 = some "--create")
      ∧ (∀ label, (m.config.map Prod.fst).head? = some label →
          (BootMgr.sync oracle m).trace.getLast? = some (createCmd m label)) := by
  rw [sync_stable oracle out m hOr hPar hCfg]
  show (∀ c ∈ stableTrace m, c.get? 1 = some "--bootnum" ∨ c.get? 1 = some "--create") ∧ _
  constructor
  · intro c hc
    unfold stableTrace at hc
    rcases List.mem_append.mp hc with h | h
    · obtain ⟨l, _, rfl⟩ := List.mem_map.mp h
      by_cases hcnd : (odLookup m.config l).isSome ∨ m.full_delete
      · left
        rw [show phase1Cmd m l = delCmd m l from by simp [phase1Cmd, hcnd]]
        rfl
      · left
        rw [show phase1Cmd m l = deactCmd m l from by simp [phase1Cmd, hcnd]]
        rfl
    · obtain ⟨l, _, rfl⟩ := List.mem_map.mp h
      right
      rfl
  · intro label hl
    show (stableTrace m).getLast? = _
    unfold stableTrace
    have hne : ((m.config.map Prod.fst).reverse).map (createCmd m) ≠ [] := by
      simp only [ne_eq, List.map_eq_nil_iff, List.reverse_eq_nil_iff]
      intro hcontra
      rw [hcontra] at hl
      simp at hl
    rw [List.getLast?_append_of_ne_nil _ hne]
    rw [List.map_reverse (createCmd m) (m.config.map Prod.fst), List.getLast?_reverse,
      List.head?_map, hl]
    rfl

/-- Witness for C2: in the concrete scenario no command carries a
reorder flag and the last command is the create of the first desired
label `A`. -/
theorem c2_sync_issues_no_reorder_witness :
    (∀ c ∈ (BootMgr.sync exOracle exMgr).trace,
        c.get? 1 = some "--bootnum" ∨ c.get? 1 = some "--create")
      ∧ (BootMgr.sync exOracle exMgr).trace.getLast? = some (createCmd exMgr "A") := by
  have h := c2_sync_issues_no_reorder exOracle exOut exMgr
    (fun _ => rfl) (by decide) (by decide)
  exact ⟨h.1, h.2 "A" (by decide)⟩

/-- Counterexample to C2 as stated: the concrete run issues four
commands and none of them contains `--bootorder`, so no reorder
operation is ever issued, let alone exactly one as the final step. -/
theorem c2_counterexample :
    (BootMgr.sync exOracle exMgr).trace.length = 4
      ∧ ∀ c ∈ (BootMgr.sync exOracle exMgr).trace, "--bootorder" ∉ c := by
  decide

/-- C3 (amended): for every report whose entry ids are distinct, whose
order-line ids are distinct and all refer to listed entries, the parser
puts the labels whose ids occur in the order line at the end of the
map, in the order their ids occur in that line, while labels whose ids
are absent from the order line keep their original relative position at
the beginning of the map (not at the end). -/
theorem c3_parser_reorders_by_order_line (stdout : String)
    (h1 : ((entriesOf stdout).map Prod.snd).Nodup)
    (h2 : (bootOrderOf stdout).Nodup)
    (h3 : ∀ b ∈ bootOrderOf stdout, b ∈ (entriesOf stdout).map Prod.snd) :
    parse_efibootmgr stdout
      = (entriesOf stdout).filter (fun e => decide (e.2 ∉ bootOrderOf stdout))
        ++ (bootOrderOf stdout).filterMap (firstWithId (entriesOf stdout)) :=
  foldl_move_to_end_char (bootOrderOf stdout) (entriesOf stdout) h1 h2 h3

/-- Witness for C3: the example report (order line `0001,0003,0002`,
entries Linux, Windows, Recovery) parses to the label order Linux,
Recovery, Windows. -/
theorem c3_parser_reorders_by_order_line_witness :
    parse_efibootmgr exReport
      = [("Linux", "0001"), ("Recovery", "0003"), ("Windows", "0002")] := by
  have h := c3_parser_reorders_by_order_line exReport (by decide) (by decide) (by decide)
  exact h.trans (by decide)

/-- Counterexample to C3 as stated: in a report where entry `Extra`
(id 0009) does not occur in the order line `0002,0001`, the parser
leaves `Extra` at the beginning of the map, not at the end as the claim
predicts. -/
theorem c3_counterexample :
    parse_efibootmgr exReport2
        = [("Extra", "0009"), ("Windows", "0002"), ("Linux", "0001")]
      ∧ parse_efibootmgr exReport2
        ≠ [("Windows", "0002"), ("Linux", "0001"), ("Extra", "0009")] := by
  decide

/-- C4: the serializer drops the accumulated prefix when recursing into
a nested tree (the source recurses with `prefix=f'{k}.'` instead of
`prefix=f'{prefix}{k}.'`), so the tree `{a: {b: {c: true}}}` serializes
to the token `b.c` and not to the dot-joined root path `a.b.c` the
specification requires. -/
theorem c4_nested_prefix_dropped :
    dump (PTree.fcons "a"
        (PTree.fcons "b" (PTree.fcons "c" (PTree.b true) PTree.fnil) PTree.fnil)
        PTree.fnil) = "b.c"
      ∧ dump (PTree.fcons "a"
          (PTree.fcons "b" (PTree.fcons "c" (PTree.b true) PTree.fnil) PTree.fnil)
          PTree.fnil) ≠ "a.b.c" := by
  decide

/-- C5: in a stable environment, a label present in the observed state
but absent from the desired config gets a deactivate command when
`full_delete` is disabled and a delete command when it is enabled. -/
theorem c5_unmanaged_label_policy
    (oracle : Oracle) (out : String) (m : Mgr) (label : String)
    (hOr : ∀ c, oracle c = Except.ok out) (hPar : parse_efibootmgr out = m.state)
    (hCfg : ∀ kv ∈ m.config, goodEntry kv.2 = true)
    (hobs : label ∈ m.state.map Prod.fst) (hdes : odLookup m.config label = none) :
    (m.full_delete = false → deactCmd m label ∈ (BootMgr.sync oracle m).trace)
      ∧ (m.full_delete = true → delCmd m label ∈ (BootMgr.sync oracle m).trace) := by
  rw [sync_stable oracle out m hOr hPar hCfg]
  show (_ → deactCmd m label ∈ stableTrace m) ∧ (_ → delCmd m label ∈ stableTrace m)
  unfold stableTrace
  constructor <;> intro hfd
  · apply List.mem_append_left
    rw [show deactCmd m label = phase1Cmd m label from by simp [phase1Cmd, hdes, hfd]]
    exact List.mem_map_of_mem _ (List.mem_reverse.mpr hobs)
  · apply List.mem_append_left
    rw [show delCmd m label = phase1Cmd m label from by simp [phase1Cmd, hdes, hfd]]
    exact List.mem_map_of_mem _ (List.mem_reverse.mpr hobs)

/-- Witness for C5: label `C` is observed but not configured; with
`full_delete` disabled the run issues its deactivate command, with
`full_delete` enabled it issues its delete command. -/
theorem c5_unmanaged_label_policy_witness :
    deactCmd exMgr5 "C" ∈ (BootMgr.sync exOracle5 exMgr5).trace
      ∧ delCmd exMgr5D "C" ∈ (BootMgr.sync exOracle5 exMgr5D).trace :=
  ⟨(c5_unmanaged_label_policy exOracle5 exOut5 exMgr5 "C"
      (fun _ => rfl) (by decide) (by decide) (by decide) (by decide)).1 rfl,
   (c5_unmanaged_label_policy exOracle5 exOut5 exMgr5D "C"
      (fun _ => rfl) (by decide) (by decide) (by decide) (by decide)).2 rfl⟩

/-- C6: whenever a reconciliation run terminates with the
`BootMgrError` of a failed utility invocation, the failing command is
the last command of the run's trace (nothing is issued after it), the
reported message is built from exactly that command's stderr, and every
earlier command of the run succeeded (fail-fast, no rollback). -/
theorem c6_fail_fast (oracle : Oracle) (m : Mgr) (msg : String)
    (h : (BootMgr.sync oracle m).err = some (Err.bootMgrError msg)) :
    ∃ c s, (BootMgr.sync oracle m).trace.getLast? = some c
      ∧ oracle c = Except.error s ∧ msg = s.dropRight 1
      ∧ ∀ c2 ∈ (BootMgr.sync oracle m).trace.dropLast, ∃ o, oracle c2 = Except.ok o :=
  (runInv_sync oracle m).2 msg h

/-- Witness for C6: with a utility that fails on any create command
(stderr `boom\n`), the run stops at the failing create: it is the last
issued command, the message is `boom`, and the two earlier deletes
succeeded. -/
theorem c6_fail_fast_witness :
    ∃ c s, (BootMgr.sync exOracle6 exMgr).trace.getLast? = some c
      ∧ exOracle6 c = Except.error s ∧ "boom" = s.dropRight 1
      ∧ ∀ c2 ∈ (BootMgr.sync exOracle6 exMgr).trace.dropLast, ∃ o, exOracle6 c2 = Except.ok o :=
  c6_fail_fast exOracle6 exMgr "boom" (by decide)

/-- C7: the executor does not strip only a trailing newline from the
utility's diagnostic: it unconditionally removes the last character of
stderr (`msg[:-1]`, commented "remove trailing newline" in the source),
so a diagnostic without a trailing newline (here `No space left`) loses
its final character and the raised message is `No space lef`; on
success the parsed stdout becomes the stored state. -/
theorem c7_stderr_truncated :
    (BootMgr.execute (fun _ => Except.error "No space left") exMgr ["efibootmgr"]).err
        = some (Err.bootMgrError "No space lef")
      ∧ (BootMgr.execute exOracle exMgr ["efibootmgr"]).mgr.state = parse_efibootmgr exOut := by
  decide

/-- C8: merging a new configuration source into the stored config
keeps every already-present label at its original position (with its
entry overwritten by the new source where the label reappears) and
appends the labels not previously present at the end, in the order
they appear in the new source. -/
theorem c8_merge_keeps_order (m : Mgr) (new : List (String × PTree))
    (h1 : (m.config.map Prod.fst).Nodup) (h2 : (new.map Prod.fst).Nodup) :
    (BootMgr.load_config m new).config
      = m.config.map (fun e => (e.1, (odLookup new e.1).getD e.2))
        ++ new.filter (fun e => (odLookup m.config e.1).isNone) := by
  show BootMgr.dictUpdate m.config new = _
  exact dictUpdate_char new m.config h1 h2

/-- Witness for C8: loading a source that redefines `B` and adds `C`
overwrites `B` in place (keeping its position after `A`) and appends
`C` at the end. -/
theorem c8_merge_keeps_order_witness :
    (BootMgr.load_config exMgr
        [("B", PTree.fcons "loader" (PTree.s "/new-b") PTree.fnil), ("C", exCfgB)]).config
      = [("A", exCfgA), ("B", PTree.fcons "loader" (PTree.s "/new-b") PTree.fnil),
         ("C", exCfgB)] := by
  have h := c8_merge_keeps_order exMgr
    [("B", PTree.fcons "loader" (PTree.s "/new-b") PTree.fnil), ("C", exCfgB)]
    (by decide) (by decide)
  exact h.trans (by decide)

/-- C9: the executor is atomic with respect to the stored state: when
the utility exits non-zero, the `BootMgrError` is raised before
`self.state` is reassigned, so the stored state map is exactly what it
was before the invocation. -/
theorem c9_execute_atomic (oracle : Oracle) (m : Mgr) (cmd : Cmd) (stderr : String)
    (h : oracle (cmd ++ ["--disk", m.device] ++ ["--part", m.partition])
      = Except.error stderr) :
    (BootMgr.execute oracle m cmd).mgr.state = m.state := by
  unfold BootMgr.execute
  by_cases hc : cmd.head? ≠ some "efibootmgr"
  · rw [if_pos hc]
  · rw [if_neg hc]
    simp only [h]

/-- Witness for C9: a failing invocation leaves the stored state map
untouched. -/
theorem c9_execute_atomic_witness :
    (BootMgr.execute (fun _ => Except.error "x\n") exMgr ["efibootmgr"]).mgr.state
      = exMgr.state :=
  c9_execute_atomic (fun _ => Except.error "x\n") exMgr ["efibootmgr"] "x\n" rfl

/-- C10: issuing a create never mutates the stored desired config (the
parameter dict is copied before the `loader` key is popped), and a
repeated create for the same label builds exactly the same argument
vectors. -/
theorem c10_create_preserves_config (oracle : Oracle) (m : Mgr) (label : String) :
    (BootMgr.create oracle m label).mgr.config = m.config
      ∧ (BootMgr.create oracle ((BootMgr.create oracle m label).mgr) label).trace
        = (BootMgr.create oracle m label).trace := by
  obtain ⟨h1, h2, h3⟩ := create_mgr_fields oracle m label
  exact ⟨h1, create_trace_congr oracle _ m label h1 h2 h3⟩
